import Mathlib

/-!
Verification of the shape-normalization logic of
`tensorflow_io/core/python/ops/audio_ops.py`.

The audio samples tensor is a rank-2 int16 tensor of shape
`[channels, samples]`.  We embed it as a structure carrying the column
count explicitly (so a matrix with zero rows still has a well-defined
sample count, exactly like a TensorFlow static shape) together with the
list of rows.
-/

/-- A rank-2 tensor of integer samples: `cols` is the number of samples per
channel (kept explicitly so a 0-row matrix still carries a column count,
as a TensorFlow shape does) and `data` the list of rows (channels). -/
structure Matrix2 where
  cols : Nat
  data : List (List Int)
deriving DecidableEq, Repr

/-- Number of channels (rows), i.e. `tf.shape(data)[0]`. -/
def Matrix2.rows (m : Matrix2) : Nat := m.data.length

/-- Well-formedness of the rank-2 embedding: every row has exactly `cols`
entries. -/
def Matrix2.wf (m : Matrix2) : Prop := ∀ r ∈ m.data, r.length = m.cols

instance (m : Matrix2) : Decidable m.wf :=
  List.decidableBAll _ m.data

/-- `tf.broadcast_to(m, [rows, cols])` restricted to rank-2 tensors: each
dimension of the input must equal the target dimension or be 1; a size-1
dimension is replicated.  A shape mismatch is the broadcast error. -/
def broadcastTo (m : Matrix2) (rows cols : Nat) : Except String Matrix2 :=
  if m.data.length = rows ∨ m.data.length = 1 then
    if m.cols = cols ∨ m.cols = 1 then
      let rowsData := if m.data.length = rows then m.data
        else List.replicate rows (m.data.headD [])
      Except.ok ⟨cols, rowsData.map (fun r =>
        if m.cols = cols then r else List.replicate cols (r.headD 0))⟩
    else Except.error "Incompatible shapes for broadcasting"
  else Except.error "Incompatible shapes for broadcasting"

/-- The `desired_samples >= 0` branch of `_fix_shape`:
`data = data[:, :desired_samples]`, then
`right_pad = desired_samples - org_samples` and, when `right_pad > 0`,
`data = tf.pad(data, [[0, 0], [0, right_pad]], "CONSTANT")`. -/
def fixSamples (data : Matrix2) (desired_samples : Int) : Matrix2 :=
  let org_samples : Nat := data.cols
  let truncated : Matrix2 :=
    ⟨min data.cols desired_samples.toNat,
     data.data.map (fun r => List.take desired_samples.toNat r)⟩
  let right_pad : Int := desired_samples - (org_samples : Int)
  if 0 < right_pad then
    ⟨truncated.cols + right_pad.toNat,
     truncated.data.map (fun r => r ++ List.replicate right_pad.toNat 0)⟩
  else truncated

/-- `_fix_shape(data, desired_channels, desired_samples)`: fix the shape of
decoded audio to the desired channels and samples.  The sample dimension is
adjusted first (truncate then zero-pad on the right); then, when
`desired_channels >= 0`, the rows are truncated with `data[:desired_channels, :]`
and broadcast to `[desired_channels, out_samples]` where `out_samples` is
`desired_samples` if that was non-negative and the original sample count
otherwise. -/
def fixShape (data : Matrix2) (desired_channels desired_samples : Int) :
    Except String Matrix2 :=
  let org_samples : Nat := data.cols
  let data1 : Matrix2 :=
    if 0 ≤ desired_samples then fixSamples data desired_samples else data
  if 0 ≤ desired_channels then
    let out_samples : Nat :=
      if 0 ≤ desired_samples then desired_samples.toNat else org_samples
    let data2 : Matrix2 := ⟨data1.cols, data1.data.take desired_channels.toNat⟩
    broadcastTo data2 desired_channels.toNat out_samples
  else
    Except.ok data1

/-- Result of the opaque native decoder (`core_ops.io_audio_decode` /
`core_ops.io_audio_decode_mp3`): a samples tensor and a sample-rate scalar. -/
structure DecoderResult where
  samples : Matrix2
  sample_rate : Int
deriving DecidableEq, Repr

/-- `decode(contents, desired_channels, desired_samples)`, parameterized by
the result of the opaque native decoder call
`core_ops.io_audio_decode(contents)`: applies `_fix_shape` to the samples
and returns the sample rate alongside. -/
def decode (dec : DecoderResult) (desired_channels desired_samples : Int) :
    Except String (Matrix2 × Int) :=
  (fixShape dec.samples desired_channels desired_samples).map
    (fun samples => (samples, dec.sample_rate))

/-- `decode_mp3(contents, desired_channels, desired_samples)`, parameterized
by the result of the opaque native decoder call
`core_ops.io_audio_decode_mp3(contents)`: applies `_fix_shape` to the
samples and returns the sample rate alongside. -/
def decode_mp3 (dec : DecoderResult) (desired_channels desired_samples : Int) :
    Except String (Matrix2 × Int) :=
  (fixShape dec.samples desired_channels desired_samples).map
    (fun samples => (samples, dec.sample_rate))

/-! ### Helper lemmas about the sample-dimension step -/

/-- The rows of `fixSamples` in closed form: each row is truncated to
`desired_samples` entries and then zero-padded on the right by
`desired_samples - org_samples` entries when that is positive. -/
lemma fixSamples_data (m : Matrix2) (ds : Int) :
    (fixSamples m ds).data =
      m.data.map (fun r =>
        List.take ds.toNat r ++ List.replicate (ds - (m.cols : Int)).toNat 0) := by
  unfold fixSamples
  simp only
  split
  · simp [List.map_map, Function.comp]
  · rename_i h
    have : (ds - (m.cols : Int)).toNat = 0 := by omega
    simp [this]

/-- `fixSamples` does not change the number of rows. -/
lemma fixSamples_rows (m : Matrix2) (ds : Int) :
    (fixSamples m ds).data.length = m.data.length := by
  rw [fixSamples_data]; simp

/-- When `desired_samples` is non-negative, the column count after the
sample step is exactly `desired_samples`. -/
lemma fixSamples_cols (m : Matrix2) (ds : Int) (h : 0 ≤ ds) :
    (fixSamples m ds).cols = ds.toNat := by
  unfold fixSamples
  simp only
  split <;> rename_i hp <;> simp only <;> omega

/-- The sample step preserves well-formedness. -/
lemma fixSamples_wf (m : Matrix2) (ds : Int) (hm : m.wf) :
    (fixSamples m ds).wf := by
  intro r hr
  rw [fixSamples_data] at hr
  rcases List.mem_map.mp hr with ⟨r0, hr0, rfl⟩
  have hlen : r0.length = m.cols := hm r0 hr0
  unfold fixSamples
  simp only
  split <;> rename_i hp <;> simp [hlen] <;> omega

/-! ### Helper lemmas about the channel-dimension step -/

/-- When the input column count already equals the broadcast target column
count (as is always the case inside `fixShape`), `broadcastTo` either keeps
the rows (row count already matches), replicates a single row, or fails. -/
lemma broadcastTo_of_cols_eq (m : Matrix2) (rows cols : Nat) (h : m.cols = cols) :
    broadcastTo m rows cols =
      if m.data.length = rows then Except.ok ⟨cols, m.data⟩
      else if m.data.length = 1 then
        Except.ok ⟨cols, List.replicate rows (m.data.headD [])⟩
      else Except.error "Incompatible shapes for broadcasting" := by
  unfold broadcastTo
  simp only
  by_cases h1 : m.data.length = rows
  · simp [h1, h, List.map_id']
  · by_cases h2 : m.data.length = 1
    · have h3 : ¬ ((1 : Nat) = rows) := h2 ▸ h1
      simp [h1, h2, h3, h, List.map_replicate]
    · simp [h1, h2, h]

/-- `fixShape` with negative `desired_channels`: the channel branch is
skipped, so the result is just the sample-adjusted data. -/
lemma fixShape_of_neg_channels (m : Matrix2) (dc ds : Int) (h : dc < 0) :
    fixShape m dc ds =
      Except.ok (if 0 ≤ ds then fixSamples m ds else m) := by
  unfold fixShape
  simp only
  rw [if_neg (by omega)]

/-- Closed-form characterization of `fixShape` with non-negative
`desired_channels`: after the sample step and the row truncation, the
row dimension either already matches, is a single row to replicate, or
the broadcast fails; the column dimensions always agree. -/
lemma fixShape_of_nonneg_channels (m : Matrix2) (dc ds : Int) (h : 0 ≤ dc) :
    fixShape m dc ds =
      (let data1 := if 0 ≤ ds then fixSamples m ds else m
       let outS := if 0 ≤ ds then ds.toNat else m.cols
       let tk := data1.data.take dc.toNat
       if tk.length = dc.toNat then Except.ok ⟨outS, tk⟩
       else if tk.length = 1 then
         Except.ok ⟨outS, List.replicate dc.toNat (tk.headD [])⟩
       else Except.error "Incompatible shapes for broadcasting") := by
  have hcols : (if 0 ≤ ds then fixSamples m ds else m).cols =
      (if 0 ≤ ds then ds.toNat else m.cols) := by
    by_cases hds : 0 ≤ ds
    · simp [hds, fixSamples_cols m ds hds]
    · simp [hds]
  unfold fixShape
  simp only
  rw [if_pos h,
    broadcastTo_of_cols_eq
      ⟨(if 0 ≤ ds then fixSamples m ds else m).cols,
       (if 0 ≤ ds then fixSamples m ds else m).data.take dc.toNat⟩
      dc.toNat (if 0 ≤ ds then ds.toNat else m.cols) hcols]

/-- The take inside the channel step has length `min dc (number of rows)`,
and the sample step does not change the number of rows. -/
lemma fixShape_take_length (m : Matrix2) (dc ds : Int) :
    ((if 0 ≤ ds then fixSamples m ds else m).data.take dc.toNat).length =
      min dc.toNat m.rows := by
  by_cases hds : 0 ≤ ds <;>
    simp [hds, List.length_take, fixSamples_rows, Matrix2.rows]

/-- On success, the column count of the `fixShape` output is
`desired_samples` when that is non-negative and the input column count
otherwise. -/
lemma fixShape_ok_cols (m : Matrix2) (dc ds : Int) (out : Matrix2)
    (h : fixShape m dc ds = Except.ok out) :
    out.cols = if 0 ≤ ds then ds.toNat else m.cols := by
  by_cases hdc : 0 ≤ dc
  · rw [fixShape_of_nonneg_channels m dc ds hdc] at h
    simp only at h
    by_cases hds : 0 ≤ ds
    · simp only [if_pos hds] at h ⊢
      split at h
      · injection h with h; subst h; rfl
      · split at h
        · injection h with h; subst h; rfl
        · simp at h
    · simp only [if_neg hds] at h ⊢
      split at h
      · injection h with h; subst h; rfl
      · split at h
        · injection h with h; subst h; rfl
        · simp at h
  · rw [fixShape_of_neg_channels m dc ds (by omega)] at h
    injection h with h; subst h
    by_cases hds : 0 ≤ ds <;> simp [hds, fixSamples_cols]

/-- On success with non-negative `desired_channels`, the output has exactly
`desired_channels` rows. -/
lemma fixShape_ok_rows_nonneg (m : Matrix2) (dc ds : Int) (out : Matrix2)
    (hdc : 0 ≤ dc) (h : fixShape m dc ds = Except.ok out) :
    out.data.length = dc.toNat := by
  rw [fixShape_of_nonneg_channels m dc ds hdc] at h
  simp only at h
  by_cases hds : 0 ≤ ds
  · simp only [if_pos hds] at h
    split at h
    · rename_i hlen
      injection h with h; subst h
      exact hlen
    · split at h
      · injection h with h; subst h
        simp
      · simp at h
  · simp only [if_neg hds] at h
    split at h
    · rename_i hlen
      injection h with h; subst h
      exact hlen
    · split at h
      · injection h with h; subst h
        simp
      · simp at h

/-- With negative `desired_channels` the row count is unchanged. -/
lemma fixShape_ok_rows_neg (m : Matrix2) (dc ds : Int) (out : Matrix2)
    (hdc : dc < 0) (h : fixShape m dc ds = Except.ok out) :
    out.data.length = m.data.length := by
  rw [fixShape_of_neg_channels m dc ds hdc] at h
  injection h with h; subst h
  by_cases hds : 0 ≤ ds <;> simp [hds, fixSamples_rows]

/-- Row-provenance inversion: with non-negative `desired_channels`, every
row of a successful `fixShape` output is one of the rows present after the
sample step (truncation only selects rows, and broadcasting only
replicates the single remaining row). -/
lemma fixShape_ok_mem (m : Matrix2) (dc ds : Int) (out : Matrix2)
    (hdc : 0 ≤ dc) (h : fixShape m dc ds = Except.ok out) :
    ∀ r ∈ out.data, r ∈ (if 0 ≤ ds then fixSamples m ds else m).data := by
  rw [fixShape_of_nonneg_channels m dc ds hdc] at h
  simp only at h
  generalize hd1 : (if 0 ≤ ds then fixSamples m ds else m) = d1 at h ⊢
  generalize houtS : (if 0 ≤ ds then ds.toNat else m.cols) = outS at h
  split at h
  · injection h with h; subst h
    intro r hr
    exact List.take_subset _ _ hr
  · split at h
    · rename_i hone
      injection h with h; subst h
      intro r hr
      rcases List.length_eq_one.mp hone with ⟨a, ha⟩
      have hra : r = a := by
        simpa [ha] using List.eq_of_mem_replicate hr
      have ham : a ∈ List.take dc.toNat d1.data := by
        rw [ha]; exact List.mem_singleton_self a
      exact hra ▸ List.take_subset _ _ ham
    · simp at h

/-- `fixShape` preserves well-formedness of the rank-2 embedding. -/
lemma fixShape_ok_wf (m : Matrix2) (dc ds : Int) (out : Matrix2)
    (hm : m.wf) (h : fixShape m dc ds = Except.ok out) : out.wf := by
  have hdata1 : (if 0 ≤ ds then fixSamples m ds else m).wf := by
    by_cases hds : 0 ≤ ds <;> simp [hds, fixSamples_wf m ds hm, hm]
  have hcols1 : (if 0 ≤ ds then fixSamples m ds else m).cols =
      (if 0 ≤ ds then ds.toNat else m.cols) := by
    by_cases hds : 0 ≤ ds <;> simp [hds, fixSamples_cols]
  have hout := fixShape_ok_cols m dc ds out h
  by_cases hdc : 0 ≤ dc
  · intro r hr
    have hmem := fixShape_ok_mem m dc ds out hdc h r hr
    rw [hdata1 r hmem, hcols1, hout]
  · rw [fixShape_of_neg_channels m dc ds (by omega)] at h
    injection h with h; subst h
    exact hdata1

/-! ### Claim theorems -/

/-- C1: For every well-formed rank-2 input on which `_fix_shape` succeeds,
the output channel count equals `desired_channels` when that argument is
non-negative and the input channel count otherwise, and the output sample
count equals `desired_samples` when that argument is non-negative and the
input sample count otherwise. -/
theorem fixShape_output_counts (m : Matrix2) (dc ds : Int) (out : Matrix2)
    (hm : m.wf) (h : fixShape m dc ds = Except.ok out) :
    ((0 ≤ dc → (out.rows : Int) = dc) ∧ (dc < 0 → out.rows = m.rows)) ∧
    ((0 ≤ ds → (out.cols : Int) = ds) ∧ (ds < 0 → out.cols = m.cols)) ∧
    out.wf := by
  have hcols := fixShape_ok_cols m dc ds out h
  refine ⟨⟨?_, ?_⟩, ⟨?_, ?_⟩, fixShape_ok_wf m dc ds out hm h⟩
  · intro hdc
    have := fixShape_ok_rows_nonneg m dc ds out hdc h
    unfold Matrix2.rows
    omega
  · intro hdc
    have := fixShape_ok_rows_neg m dc ds out hdc h
    unfold Matrix2.rows
    omega
  · intro hds
    rw [hcols, if_pos hds]
    omega
  · intro hds
    rw [hcols, if_neg (by omega)]

/-- Witness for C1 at a concrete input: shape `[2, 2]`, desired channels 1,
desired samples 3. -/
theorem fixShape_output_counts_witness :
    Matrix2.wf ⟨2, [[1, 2], [3, 4]]⟩ ∧
    fixShape ⟨2, [[1, 2], [3, 4]]⟩ 1 3 = Except.ok ⟨3, [[1, 2, 0]]⟩ ∧
    (((0 : Int) ≤ 1 → ((Matrix2.mk 3 [[1, 2, 0]]).rows : Int) = 1) ∧
      ((1 : Int) < 0 →
        (Matrix2.mk 3 [[1, 2, 0]]).rows = (Matrix2.mk 2 [[1, 2], [3, 4]]).rows)) ∧
    (((0 : Int) ≤ 3 → ((Matrix2.mk 3 [[1, 2, 0]]).cols : Int) = 3) ∧
      ((3 : Int) < 0 →
        (Matrix2.mk 3 [[1, 2, 0]]).cols = (Matrix2.mk 2 [[1, 2], [3, 4]]).cols)) ∧
    (Matrix2.mk 3 [[1, 2, 0]]).wf :=
  ⟨by decide, by rfl,
    fixShape_output_counts ⟨2, [[1, 2], [3, 4]]⟩ 1 3 ⟨3, [[1, 2, 0]]⟩
      (by decide) (by rfl)⟩

/-- C2: `_fix_shape` raises the shape/broadcast error if and only if
`desired_channels` is non-negative, exceeds the input channel count, and
the input channel count is not 1; in every other case it returns normally
(and this is the only locally-introduced error condition). -/
theorem fixShape_error_iff (m : Matrix2) (dc ds : Int) :
    (∃ e, fixShape m dc ds = Except.error e) ↔
      (0 ≤ dc ∧ (m.rows : Int) < dc ∧ m.rows ≠ 1) := by
  have hlen : ((if 0 ≤ ds then fixSamples m ds else m).data.take dc.toNat).length
      = min dc.toNat m.data.length := by
    by_cases hds : 0 ≤ ds <;> simp [hds, fixSamples_rows]
  constructor
  · rintro ⟨e, he⟩
    by_cases hdc : 0 ≤ dc
    · rw [fixShape_of_nonneg_channels m dc ds hdc] at he
      simp only at he
      generalize hd1 : (if 0 ≤ ds then fixSamples m ds else m) = d1 at he hlen
      generalize houtS : (if 0 ≤ ds then ds.toNat else m.cols) = outS at he
      split at he
      · simp at he
      · split at he
        · simp at he
        · rename_i h1 h2
          rw [hlen] at h1 h2
          unfold Matrix2.rows
          omega
    · rw [fixShape_of_neg_channels m dc ds (by omega)] at he
      simp at he
  · rintro ⟨hdc, hlt, hne⟩
    rw [fixShape_of_nonneg_channels m dc ds hdc]
    simp only
    generalize hd1 : (if 0 ≤ ds then fixSamples m ds else m) = d1 at hlen
    generalize houtS : (if 0 ≤ ds then ds.toNat else m.cols) = outS
    unfold Matrix2.rows at hlt hne
    rw [if_neg (by omega), if_neg (by omega)]
    exact ⟨_, rfl⟩

/-- C5: For every rank-2 input with at least `desired_channels` channels,
`desired_channels` non-negative and `desired_samples` negative, the output
is exactly the first `desired_channels` rows of the input, values
unchanged. -/
theorem fixShape_channel_truncation (m : Matrix2) (dc ds : Int)
    (hdc : 0 ≤ dc) (hch : dc ≤ (m.rows : Int)) (hds : ds < 0) :
    fixShape m dc ds = Except.ok ⟨m.cols, m.data.take dc.toNat⟩ := by
  rw [fixShape_of_nonneg_channels m dc ds hdc]
  simp only [if_neg (by omega : ¬ (0 : Int) ≤ ds)]
  rw [if_pos]
  unfold Matrix2.rows at hch
  simp
  omega

/-- Witness for C5 at a concrete input: shape `[2, 4]`,
`desired_channels = 1`, `desired_samples = -1` keeps the first row only. -/
theorem fixShape_channel_truncation_witness :
    (0 : Int) ≤ 1 ∧ (1 : Int) ≤ ((Matrix2.mk 4 [[1, 2, 3, 4], [5, 6, 7, 8]]).rows : Int) ∧
    (-1 : Int) < 0 ∧
    fixShape ⟨4, [[1, 2, 3, 4], [5, 6, 7, 8]]⟩ 1 (-1) =
      Except.ok ⟨(Matrix2.mk 4 [[1, 2, 3, 4], [5, 6, 7, 8]]).cols,
        (Matrix2.mk 4 [[1, 2, 3, 4], [5, 6, 7, 8]]).data.take (1 : Int).toNat⟩ :=
  ⟨by decide, by decide, by decide,
    fixShape_channel_truncation ⟨4, [[1, 2, 3, 4], [5, 6, 7, 8]]⟩ 1 (-1)
      (by decide) (by decide) (by decide)⟩

/-- C6: For every rank-2 input and every pair of negative arguments (any
negative values, not only `-1`, since only the sign is inspected),
`_fix_shape` is the identity. -/
theorem fixShape_identity (m : Matrix2) (dc ds : Int)
    (hdc : dc < 0) (hds : ds < 0) :
    fixShape m dc ds = Except.ok m := by
  rw [fixShape_of_neg_channels m dc ds hdc]
  rw [if_neg (by omega)]

/-- Witness for C6 at a concrete input with negative arguments other
than `-1`. -/
theorem fixShape_identity_witness :
    (-2 : Int) < 0 ∧ (-5 : Int) < 0 ∧
    fixShape ⟨2, [[1, 2], [3, 4]]⟩ (-2) (-5) = Except.ok ⟨2, [[1, 2], [3, 4]]⟩ :=
  ⟨by decide, by decide,
    fixShape_identity ⟨2, [[1, 2], [3, 4]]⟩ (-2) (-5) (by decide) (by decide)⟩

/-- C3: For every well-formed rank-2 input with `desired_samples`
non-negative and `desired_channels` negative, `_fix_shape` succeeds;
each output row agrees with the corresponding input row on every column
`j < min (input samples) desired_samples`, and every entry in columns
`input samples ≤ j < desired_samples` is exactly zero (right-side,
constant-0 padding only). -/
theorem fixShape_truncate_pad (m : Matrix2) (dc ds : Int)
    (hm : m.wf) (hds : 0 ≤ ds) (hdc : dc < 0) :
    ∃ out, fixShape m dc ds = Except.ok out ∧
      out.data.length = m.data.length ∧
      ∀ (i : Nat) (r r' : List Int),
        m.data[i]? = some r → out.data[i]? = some r' →
        (∀ j : Nat, j < min m.cols ds.toNat → r'[j]? = r[j]?) ∧
        (∀ j : Nat, m.cols ≤ j → j < ds.toNat → r'[j]? = some 0) := by
  refine ⟨fixSamples m ds, ?_, fixSamples_rows m ds, ?_⟩
  · rw [fixShape_of_neg_channels m dc ds hdc, if_pos hds]
  · intro i r r' hr hr'
    rw [fixSamples_data, List.getElem?_map, hr] at hr'
    injection hr' with hr'
    have hrm : r ∈ m.data := List.getElem?_mem hr
    have hrl : r.length = m.cols := hm r hrm
    subst hr'
    constructor
    · intro j hj
      rw [List.getElem?_append_left (by simp [hrl]; omega),
        List.getElem?_take, if_pos (by omega)]
    · intro j hjl hju
      rw [List.getElem?_append_right (by simp [hrl]; omega),
        List.getElem?_replicate, if_pos (by simp [hrl]; omega)]

/-- Witness for C3 at a concrete input: shape `[2, 2]` padded to 4
samples with `desired_channels = -1`. -/
theorem fixShape_truncate_pad_witness :
    Matrix2.wf ⟨2, [[1, 2], [3, 4]]⟩ ∧ (0 : Int) ≤ 4 ∧ (-1 : Int) < 0 ∧
    ∃ out, fixShape ⟨2, [[1, 2], [3, 4]]⟩ (-1) 4 = Except.ok out ∧
      out.data.length = (Matrix2.mk 2 [[1, 2], [3, 4]]).data.length ∧
      ∀ (i : Nat) (r r' : List Int),
        (Matrix2.mk 2 [[1, 2], [3, 4]]).data[i]? = some r →
        out.data[i]? = some r' →
        (∀ j : Nat, j < min (Matrix2.mk 2 [[1, 2], [3, 4]]).cols (4 : Int).toNat →
          r'[j]? = r[j]?) ∧
        (∀ j : Nat, (Matrix2.mk 2 [[1, 2], [3, 4]]).cols ≤ j → j < (4 : Int).toNat →
          r'[j]? = some 0) :=
  ⟨by decide, by decide, by decide,
    fixShape_truncate_pad ⟨2, [[1, 2], [3, 4]]⟩ (-1) 4
      (by decide) (by decide) (by decide)⟩

/-- C4: For every single-channel rank-2 input and every
`desired_channels = N ≥ 1` with `desired_samples` negative, `_fix_shape`
succeeds with `N` rows, and every output row equals the original single
row (pure replication, no value change). -/
theorem fixShape_channel_replication (m : Matrix2) (r : List Int) (dc ds : Int)
    (hm : m.data = [r]) (hdc : 1 ≤ dc) (hds : ds < 0) :
    ∃ out, fixShape m dc ds = Except.ok out ∧
      out.data.length = dc.toNat ∧ ∀ row ∈ out.data, row = r := by
  rw [fixShape_of_nonneg_channels m dc ds (by omega)]
  simp only [if_neg (by omega : ¬ (0 : Int) ≤ ds)]
  rw [hm]
  have htk : List.take dc.toNat [r] = [r] :=
    List.take_of_length_le (by simp; omega)
  rw [htk]
  split
  · rename_i h1
    refine ⟨_, rfl, by simpa using h1, ?_⟩
    intro row hrow
    simpa using hrow
  · rw [if_pos (by simp)]
    refine ⟨_, rfl, by simp, ?_⟩
    intro row hrow
    have := List.eq_of_mem_replicate hrow
    simpa using this

/-- Witness for C4 at a concrete input: `[1, 4]` input expanded to 2
channels. -/
theorem fixShape_channel_replication_witness :
    (Matrix2.mk 4 [[9, 8, 7, 6]]).data = [[9, 8, 7, 6]] ∧
    (1 : Int) ≤ 2 ∧ (-1 : Int) < 0 ∧
    ∃ out, fixShape ⟨4, [[9, 8, 7, 6]]⟩ 2 (-1) = Except.ok out ∧
      out.data.length = (2 : Int).toNat ∧
      ∀ row ∈ out.data, row = [9, 8, 7, 6] :=
  ⟨by decide, by decide, by decide,
    fixShape_channel_replication ⟨4, [[9, 8, 7, 6]]⟩ [9, 8, 7, 6] 2 (-1)
      (by rfl) (by decide) (by decide)⟩

/-- C9: The channel step broadcasts to `[desired_channels, out_samples]`
where `out_samples` is `desired_samples` when non-negative and the
post-sample-edit (original) sample count otherwise; in particular, when
both arguments are non-negative a successful `_fix_shape` output has shape
exactly `[desired_channels, desired_samples]`. -/
theorem fixShape_broadcast_target (m : Matrix2) (dc ds : Int) (out : Matrix2)
    (hdc : 0 ≤ dc) (h : fixShape m dc ds = Except.ok out) :
    (out.rows : Int) = dc ∧
    out.cols = (if 0 ≤ ds then ds.toNat else m.cols) ∧
    (0 ≤ ds → (out.cols : Int) = ds) := by
  have hrows := fixShape_ok_rows_nonneg m dc ds out hdc h
  have hcols := fixShape_ok_cols m dc ds out h
  refine ⟨?_, hcols, ?_⟩
  · unfold Matrix2.rows
    omega
  · intro hds
    rw [hcols, if_pos hds]
    omega

/-- Witness for C9 at a concrete input: shape `[1, 1]` expanded to
`[2, 3]`. -/
theorem fixShape_broadcast_target_witness :
    (0 : Int) ≤ 2 ∧
    fixShape ⟨1, [[7]]⟩ 2 3 = Except.ok ⟨3, [[7, 0, 0], [7, 0, 0]]⟩ ∧
    ((Matrix2.mk 3 [[7, 0, 0], [7, 0, 0]]).rows : Int) = 2 ∧
    (Matrix2.mk 3 [[7, 0, 0], [7, 0, 0]]).cols =
      (if (0 : Int) ≤ 3 then (3 : Int).toNat else (Matrix2.mk 1 [[7]]).cols) ∧
    ((0 : Int) ≤ 3 → ((Matrix2.mk 3 [[7, 0, 0], [7, 0, 0]]).cols : Int) = 3) :=
  ⟨by decide, by rfl,
    fixShape_broadcast_target ⟨1, [[7]]⟩ 2 3 ⟨3, [[7, 0, 0], [7, 0, 0]]⟩
      (by decide) (by rfl)⟩

/-- Mapping a successful `Except` value: recover the underlying
`fixShape` result and the untouched sample rate. -/
lemma fixShape_map_ok (dec : DecoderResult) (dc ds : Int) (p : Matrix2 × Int)
    (h : (fixShape dec.samples dc ds).map
        (fun samples => (samples, dec.sample_rate)) = Except.ok p) :
    p.2 = dec.sample_rate ∧ fixShape dec.samples dc ds = Except.ok p.1 := by
  cases hfix : fixShape dec.samples dc ds with
  | ok s =>
    rw [hfix] at h
    simp [Except.map] at h
    rw [← h]
    exact ⟨rfl, rfl⟩
  | error e =>
    rw [hfix] at h
    simp [Except.map] at h

/-- C7: For every decoder result, `decode` and `decode_mp3` return the
decoder's `sample_rate` scalar unchanged, and shape normalization
(`_fix_shape`) is applied only to the samples array. -/
theorem decode_preserves_sample_rate (dec : DecoderResult) (dc ds : Int)
    (p : Matrix2 × Int) :
    (decode dec dc ds = Except.ok p →
      p.2 = dec.sample_rate ∧ fixShape dec.samples dc ds = Except.ok p.1) ∧
    (decode_mp3 dec dc ds = Except.ok p →
      p.2 = dec.sample_rate ∧ fixShape dec.samples dc ds = Except.ok p.1) :=
  ⟨fun h => fixShape_map_ok dec dc ds p h,
   fun h => fixShape_map_ok dec dc ds p h⟩

/-- Witness for C7 at a concrete decoder result. -/
theorem decode_preserves_sample_rate_witness :
    ((⟨⟨2, [[1, 2]]⟩, 44100⟩ : DecoderResult).sample_rate =
        (⟨⟨2, [[1, 2]]⟩, 44100⟩ : DecoderResult).sample_rate) ∧
    ((Matrix2.mk 2 [[1, 2]], (44100 : Int)).2 =
        (⟨⟨2, [[1, 2]]⟩, 44100⟩ : DecoderResult).sample_rate ∧
      fixShape (⟨⟨2, [[1, 2]]⟩, 44100⟩ : DecoderResult).samples (-1) (-1) =
        Except.ok (Matrix2.mk 2 [[1, 2]], (44100 : Int)).1) :=
  ⟨rfl,
    (decode_preserves_sample_rate ⟨⟨2, [[1, 2]]⟩, 44100⟩ (-1) (-1)
      (⟨2, [[1, 2]]⟩, 44100)).1 (by rfl)⟩

/-- C8 counterexample: `desired_samples = 0` does not by itself prevent
the broadcast error: a well-formed `[2, 1]` input with
`desired_channels = 3` and `desired_samples = 0` makes `_fix_shape`
raise, refuting the claim that `desired_samples == 0` never raises. -/
theorem fixShape_zero_sized_counterexample :
    Matrix2.wf ⟨1, [[5], [6]]⟩ ∧
    fixShape ⟨1, [[5], [6]]⟩ 3 0 =
      Except.error "Incompatible shapes for broadcasting" :=
  ⟨by decide, by rfl⟩

/-- C8 (amended): `desired_channels = 0` never raises and yields an output
with zero rows; `desired_samples = 0` yields an output with zero columns
and never raises, except when the channel-broadcast error condition
(`desired_channels` non-negative, exceeding a channel count other than 1)
holds. -/
theorem fixShape_zero_sized (m : Matrix2) (dc ds : Int) :
    (dc = 0 → ∃ out, fixShape m dc ds = Except.ok out ∧ out.data.length = 0) ∧
    (ds = 0 → ¬ (0 ≤ dc ∧ (m.rows : Int) < dc ∧ m.rows ≠ 1) →
      ∃ out, fixShape m dc ds = Except.ok out ∧ out.cols = 0) := by
  constructor
  · intro hdc
    subst hdc
    cases hout : fixShape m 0 ds with
    | ok out =>
      exact ⟨out, rfl, fixShape_ok_rows_nonneg m 0 ds out (by omega) hout⟩
    | error e =>
      have := (fixShape_error_iff m 0 ds).mp ⟨e, hout⟩
      omega
  · intro hds hne
    subst hds
    cases hout : fixShape m dc 0 with
    | ok out =>
      refine ⟨out, rfl, ?_⟩
      have := fixShape_ok_cols m dc 0 out hout
      rw [this, if_pos (by omega)]
      rfl
    | error e =>
      exact absurd ((fixShape_error_iff m dc 0).mp ⟨e, hout⟩) hne

/-- Witness for C8 (amended) at a concrete input: `[2, 2]` input with
both desired sizes zero. -/
theorem fixShape_zero_sized_witness :
    (∃ out, fixShape ⟨2, [[1, 2], [3, 4]]⟩ 0 0 = Except.ok out ∧
      out.data.length = 0) ∧
    (∃ out, fixShape ⟨2, [[1, 2], [3, 4]]⟩ 0 0 = Except.ok out ∧
      out.cols = 0) :=
  ⟨(fixShape_zero_sized ⟨2, [[1, 2], [3, 4]]⟩ 0 0).1 rfl,
   (fixShape_zero_sized ⟨2, [[1, 2], [3, 4]]⟩ 0 0).2 rfl (by decide)⟩

/-- A well-formed matrix whose column count already equals a non-negative
`desired_samples` is a fixed point of the sample step. -/
lemma fixSamples_id (m : Matrix2) (ds : Int) (hm : m.wf) (hds : 0 ≤ ds)
    (hc : m.cols = ds.toNat) : fixSamples m ds = m := by
  unfold fixSamples
  simp only
  rw [if_neg (by omega)]
  have hdata : m.data.map (fun r => List.take ds.toNat r) = m.data := by
    have : m.data.map (fun r => List.take ds.toNat r) = m.data.map id :=
      List.map_congr_left (fun r hr =>
        List.take_of_length_le (by rw [hm r hr, hc]))
    rw [this, List.map_id]
  rw [hdata]
  have : min m.cols ds.toNat = m.cols := by omega
  rw [this]

/-- C10: `_fix_shape` is idempotent: whenever it succeeds on a well-formed
rank-2 input, applying it again with the same arguments returns the first
result unchanged. -/
theorem fixShape_idempotent (m : Matrix2) (dc ds : Int) (out : Matrix2)
    (hm : m.wf) (h : fixShape m dc ds = Except.ok out) :
    fixShape out dc ds = Except.ok out := by
  have hwf := fixShape_ok_wf m dc ds out hm h
  have hcols := fixShape_ok_cols m dc ds out h
  have hd1 : (if 0 ≤ ds then fixSamples out ds else out) = out := by
    by_cases hds : 0 ≤ ds
    · rw [if_pos hds]
      exact fixSamples_id out ds hwf hds (by rw [hcols, if_pos hds])
    · rw [if_neg hds]
  by_cases hdc : 0 ≤ dc
  · have hrows := fixShape_ok_rows_nonneg m dc ds out hdc h
    rw [fixShape_of_nonneg_channels out dc ds hdc]
    simp only
    rw [hd1]
    rw [List.take_of_length_le (le_of_eq hrows)]
    rw [if_pos hrows]
    have houtS : (if 0 ≤ ds then ds.toNat else out.cols) = out.cols := by
      by_cases hds : 0 ≤ ds
      · rw [if_pos hds, hcols, if_pos hds]
      · rw [if_neg hds]
    rw [houtS]
  · rw [fixShape_of_neg_channels out dc ds (by omega)]
    rw [hd1]

/-- Witness for C10 at a concrete input: shape `[3, 2]` normalized to
`[2, 3]`, then normalized once more. -/
theorem fixShape_idempotent_witness :
    Matrix2.wf ⟨2, [[1, 2], [3, 4], [5, 6]]⟩ ∧
    fixShape ⟨2, [[1, 2], [3, 4], [5, 6]]⟩ 2 3 =
      Except.ok ⟨3, [[1, 2, 0], [3, 4, 0]]⟩ ∧
    fixShape ⟨3, [[1, 2, 0], [3, 4, 0]]⟩ 2 3 =
      Except.ok ⟨3, [[1, 2, 0], [3, 4, 0]]⟩ :=
  ⟨by decide, by rfl,
    fixShape_idempotent ⟨2, [[1, 2], [3, 4], [5, 6]]⟩ 2 3
      ⟨3, [[1, 2, 0], [3, 4, 0]]⟩ (by decide) (by rfl)⟩
